import Mathlib

/-!
# Verification of the record/replay determinism engine

Shallow embedding of the RecordReplay gecko-dev record/replay core:
the recording-data delivery path, the event-stream record/replay law,
checkpoint gating, fork handling, divergence reporting, channel message
routing and the public API wrappers.  Definitions are translated from the
C++ sources (`toolkit/recordreplay/ProcessRecordReplay.cpp`, the child IPC
file, `mfbt/RecordReplay.h`); parts of the repository whose implementation
files are absent (the `Stream`/`Recording` classes, `Channel` internals)
are modelled from the specification and marked as such.
-/

namespace RecRep

/-! ## Recording data delivery (child IPC file)

`gRecordingContents` is a flat byte buffer; `RecordingDataMessage` carries a
start offset (`mTag`) and a byte payload.  `IncorporateRecordingData` appends
the part of the payload that extends past the current buffer, provided the
start offset is not past the end of the buffer; `OnNewRecordingData` defers
non-contiguous messages and retries the deferred list in a single forward
pass after a successful incorporation. -/

/-- A `RecordingDataMessage`: fork id (`mForkId`), start offset in the
recording (`mTag`) and binary payload. Bytes are modelled as naturals. -/
structure RecordingDataMsg where
  forkId : Nat
  start : Nat
  data : List Nat
deriving DecidableEq

/-- State of recording-data reception in a replaying child:
`gRecordingContents` plus `gDeferredRecordingDataMessages`. -/
structure RecState where
  contents : List Nat
  deferred : List RecordingDataMsg
deriving DecidableEq

/-- `IncorporateRecordingData`: fails (returns `none`) when the message
starts past the end of the received contents; otherwise appends the final
`extent - length` bytes of the payload when the message extends the
contents, and leaves the contents unchanged when it does not. -/
def incorporateRecordingData (contents : List Nat) (m : RecordingDataMsg) :
    Option (List Nat) :=
  if m.start > contents.length then
    none
  else
    let extent := m.start + m.data.length
    if extent > contents.length then
      let nbytes := extent - contents.length
      some (contents ++ m.data.drop (m.data.length - nbytes))
    else
      some contents

/-- The retry loop in `OnNewRecordingData`: a single forward pass over the
deferred messages, incorporating each one that has become contiguous
(erasing it from the list) and keeping the others, threading the updated
contents left to right. -/
def processDeferred (contents : List Nat) :
    List RecordingDataMsg → List Nat × List RecordingDataMsg
  | [] => (contents, [])
  | m :: rest =>
    match incorporateRecordingData contents m with
    | some c => processDeferred c rest
    | none =>
      let r := processDeferred contents rest
      (r.1, m :: r.2)

/-- `OnNewRecordingData`: incorporate the incoming message if contiguous and
then retry the deferred list once; otherwise push the message onto the
deferred list. -/
def onNewRecordingData (st : RecState) (m : RecordingDataMsg) : RecState :=
  match incorporateRecordingData st.contents m with
  | some c =>
    let r := processDeferred c st.deferred
    ⟨r.1, r.2⟩
  | none => ⟨st.contents, st.deferred ++ [m]⟩

/-- Deliver a sequence of recording-data messages to an initially empty
recording, in the given order. -/
def deliverAll (msgs : List RecordingDataMsg) : RecState :=
  msgs.foldl onNewRecordingData ⟨[], []⟩

/-! Basic structure lemmas: incorporation only ever appends. -/

theorem incorporate_append (contents : List Nat) (m : RecordingDataMsg)
    (c' : List Nat) (h : incorporateRecordingData contents m = some c') :
    ∃ t, c' = contents ++ t := by
  unfold incorporateRecordingData at h
  by_cases h1 : m.start > contents.length
  · simp [h1] at h
  · simp only [h1, if_false] at h
    by_cases h2 : m.start + m.data.length > contents.length
    · simp only [h2, if_true, Option.some.injEq] at h
      exact ⟨_, h.symm⟩
    · simp only [h2, if_false, Option.some.injEq] at h
      exact ⟨[], by simp [h.symm]⟩

theorem processDeferred_append (d : List RecordingDataMsg) (contents : List Nat) :
    ∃ t, (processDeferred contents d).1 = contents ++ t := by
  induction d generalizing contents with
  | nil => exact ⟨[], by simp [processDeferred]⟩
  | cons m rest ih =>
    unfold processDeferred
    cases hinc : incorporateRecordingData contents m with
    | none =>
      obtain ⟨t, ht⟩ := ih contents
      exact ⟨t, ht⟩
    | some c =>
      obtain ⟨t1, ht1⟩ := incorporate_append contents m c hinc
      obtain ⟨t2, ht2⟩ := ih c
      subst ht1
      exact ⟨t1 ++ t2, by rw [ht2, List.append_assoc]⟩

theorem onNew_append (st : RecState) (m : RecordingDataMsg) :
    ∃ t, (onNewRecordingData st m).contents = st.contents ++ t := by
  unfold onNewRecordingData
  cases hinc : incorporateRecordingData st.contents m with
  | none => exact ⟨[], by simp⟩
  | some c =>
    obtain ⟨t1, ht1⟩ := incorporate_append st.contents m c hinc
    obtain ⟨t2, ht2⟩ := processDeferred_append st.deferred c
    subst ht1
    refine ⟨t1 ++ t2, ?_⟩
    show (processDeferred (st.contents ++ t1) st.deferred).1 = _
    rw [ht2, List.append_assoc]

theorem foldl_onNew_length (msgs : List RecordingDataMsg) (st : RecState) :
    st.contents.length ≤ (msgs.foldl onNewRecordingData st).contents.length := by
  induction msgs generalizing st with
  | nil => simp
  | cons m rest ih =>
    obtain ⟨t, ht⟩ := onNew_append st m
    calc st.contents.length ≤ (onNewRecordingData st m).contents.length := by
          simp [ht]
      _ ≤ _ := ih (onNewRecordingData st m)

/-- C3: the recording contents buffer is append-only: incorporating a
delivered recording-data chunk leaves every byte at an offset `X` below the
current buffer length unchanged, and the buffer length is non-decreasing
across every subsequent sequence of deliveries. -/
theorem recording_append_only (st : RecState) (m : RecordingDataMsg) (X : Nat)
    (hX : X < st.contents.length) :
    (onNewRecordingData st m).contents.get? X = st.contents.get? X ∧
    st.contents.length ≤ (onNewRecordingData st m).contents.length ∧
    ∀ msgs : List RecordingDataMsg,
      st.contents.length ≤ (msgs.foldl onNewRecordingData st).contents.length := by
  obtain ⟨t, ht⟩ := onNew_append st m
  refine ⟨?_, ?_, fun msgs => foldl_onNew_length msgs st⟩
  · rw [ht]
    simp [List.getElem?_append_left hX]
  · rw [ht]
    simp

theorem recording_append_only_witness :
    1 < ([5, 6] : List Nat).length ∧
    ((onNewRecordingData ⟨[5, 6], []⟩ ⟨0, 2, [7]⟩).contents.get? 1 =
        ([5, 6] : List Nat).get? 1 ∧
      ([5, 6] : List Nat).length ≤
        (([⟨0, 0, [9, 9, 9]⟩] : List RecordingDataMsg).foldl onNewRecordingData
            ⟨[5, 6], []⟩).contents.length) := by
  have h := recording_append_only ⟨[5, 6], []⟩ ⟨0, 2, [7]⟩ 1 (by decide)
  exact ⟨by decide, h.1, h.2.2 [⟨0, 0, [9, 9, 9]⟩]⟩

/-- C2: counterexample to permutation-invariance of `OnNewRecordingData`.
Delivering the three contiguous chunks covering [4,6), [2,4), [0,2) in that
order leaves the [4,6) chunk on the deferred list forever (the single
forward retry pass visits it before the chunk that fills its gap), so the
final committed buffer has 4 bytes, while in-order delivery commits all 6. -/
theorem out_of_order_merge_incomplete :
    (deliverAll [⟨0, 4, [24, 25]⟩, ⟨0, 2, [22, 23]⟩, ⟨0, 0, [20, 21]⟩]).contents
        = [20, 21, 22, 23] ∧
    (deliverAll [⟨0, 4, [24, 25]⟩, ⟨0, 2, [22, 23]⟩, ⟨0, 0, [20, 21]⟩]).deferred
        = [⟨0, 4, [24, 25]⟩] ∧
    (deliverAll [⟨0, 0, [20, 21]⟩, ⟨0, 2, [22, 23]⟩, ⟨0, 4, [24, 25]⟩]).contents
        = [20, 21, 22, 23, 24, 25] ∧
    (deliverAll [⟨0, 4, [24, 25]⟩, ⟨0, 2, [22, 23]⟩, ⟨0, 0, [20, 21]⟩]).contents ≠
      (deliverAll [⟨0, 0, [20, 21]⟩, ⟨0, 2, [22, 23]⟩, ⟨0, 4, [24, 25]⟩]).contents := by
  decide

/-! ## Event stream record/replay (C1)

`RecordReplayInterface_InternalRecordReplayValue` first records/replays a
`ThreadEvent::Value` marker, then the scalar itself;
`RecordReplayInterface_InternalRecordReplayBytes` records/replays a
`ThreadEvent::Bytes` marker, then checks the byte count (`CheckInput`), then
the bytes.  The `Stream` class backing `thread->Events()` is not under
`src/`, so its behaviour is modelled from the specification. -/

/-- Thread event markers written before a value/bytes payload
(`ThreadEvent::Value`, `ThreadEvent::Bytes`). -/
inductive ThreadEventKind where
  | value
  | bytes
deriving DecidableEq

/-- Modelled from the spec: one item of a thread's event stream.  A marker
(`recordOrReplayThreadEvent`), a scalar (`recordOrReplayValue`), an input
check (`CheckInput` on the byte count) or a byte payload
(`recordOrReplayBytes`). -/
inductive StreamItem where
  | marker (k : ThreadEventKind)
  | scalar (v : Nat)
  | inputCheck (n : Nat)
  | byteData (d : List Nat)
deriving DecidableEq

/-- One instrumented call made by the program: `RecordReplayValue` with a
computed value, or `RecordReplayBytes` with a computed buffer. -/
inductive RRCall where
  | value (v : Nat)
  | bytes (d : List Nat)
deriving DecidableEq

/-- The value/buffer returned to the caller by an instrumented call. -/
inductive RROutput where
  | value (v : Nat)
  | bytes (d : List Nat)
deriving DecidableEq

/-- Modelled from the spec: while recording, a call appends its marker and
payload to the thread's event stream. -/
def recordCallEvents : RRCall → List StreamItem
  | .value v => [.marker .value, .scalar v]
  | .bytes d => [.marker .bytes, .inputCheck d.length, .byteData d]

/-- While recording, a call returns the caller's value/buffer unchanged. -/
def recordCallOutput : RRCall → RROutput
  | .value v => .value v
  | .bytes d => .bytes d

/-- Modelled from the spec: run a program's instrumented calls while
recording, producing the sequence of returned values and the recorded
event stream. -/
def recordRun : List RRCall → List RROutput × List StreamItem
  | [] => ([], [])
  | c :: rest =>
    let r := recordRun rest
    (recordCallOutput c :: r.1, recordCallEvents c ++ r.2)

/-- Modelled from the spec: while replaying, a call reads the next events
from the stream; the marker kind must match the call kind (and for bytes
the byte count must match, per `CheckInput`), and the stored payload is
returned instead of the caller's value.  A mismatch is a divergence
(`none`). -/
def replayCall : RRCall → List StreamItem → Option (RROutput × List StreamItem)
  | .value _, .marker .value :: .scalar w :: rest => some (.value w, rest)
  | .bytes d, .marker .bytes :: .inputCheck n :: .byteData e :: rest =>
    if d.length = n then some (.bytes e, rest) else none
  | _, _ => none

/-- Replay a sequence of instrumented calls against a stream, returning the
outputs and the unconsumed remainder of the stream, or `none` on
divergence. -/
def replayRun : List RRCall → List StreamItem →
    Option (List RROutput × List StreamItem)
  | [], s => some ([], s)
  | c :: rest, s =>
    match replayCall c s with
    | some (out, s') =>
      match replayRun rest s' with
      | some (outs, s'') => some (out :: outs, s'')
      | none => none
    | none => none

/-- Two calls at the same call site of the identical program: same kind,
and for bytes the same buffer size (the replay-time caller may have
computed a different value/content). -/
def sameShapeCall : RRCall → RRCall → Bool
  | .value _, .value _ => true
  | .bytes d, .bytes d' => d.length = d'.length
  | _, _ => false

/-- Pointwise `sameShapeCall` on call sequences. -/
def sameShape : List RRCall → List RRCall → Bool
  | [], [] => true
  | c :: r, c' :: r' => sameShapeCall c c' && sameShape r r'
  | _, _ => false

theorem recordRun_append (a b : List RRCall) :
    recordRun (a ++ b) =
      ((recordRun a).1 ++ (recordRun b).1, (recordRun a).2 ++ (recordRun b).2) := by
  induction a with
  | nil => simp [recordRun]
  | cons c rest ih => simp [recordRun, ih]

theorem sameShape_take (a b : List RRCall) (h : sameShape a b = true) (k : Nat) :
    sameShape (a.take k) (b.take k) = true := by
  induction a generalizing b k with
  | nil =>
    cases b with
    | nil => simp [sameShape]
    | cons c' r' => simp [sameShape] at h
  | cons c r ih =>
    cases b with
    | nil => simp [sameShape] at h
    | cons c' r' =>
      rw [sameShape, Bool.and_eq_true] at h
      cases k with
      | zero => simp [sameShape]
      | succ k' =>
        simp only [List.take_succ_cons]
        rw [sameShape, Bool.and_eq_true]
        exact ⟨h.1, ih r' h.2 k'⟩

theorem replayRun_of_recordRun (calls calls' : List RRCall)
    (h : sameShape calls calls' = true) (rest : List StreamItem) :
    replayRun calls' ((recordRun calls).2 ++ rest) =
      some ((recordRun calls).1, rest) := by
  induction calls generalizing calls' rest with
  | nil =>
    cases calls' with
    | nil => simp [recordRun, replayRun]
    | cons c' r' => simp [sameShape] at h
  | cons c r ih =>
    cases calls' with
    | nil => simp [sameShape] at h
    | cons c' r' =>
      rw [sameShape, Bool.and_eq_true] at h
      obtain ⟨h1, h2⟩ := h
      cases c with
      | value v =>
        cases c' with
        | value v' =>
          simp only [recordRun, recordCallEvents, recordCallOutput,
            List.append_assoc, List.cons_append, List.nil_append]
          rw [replayRun, replayCall]
          simp [ih r' h2 rest]
        | bytes d' => simp [sameShapeCall] at h1
      | bytes d =>
        cases c' with
        | value v' => simp [sameShapeCall] at h1
        | bytes d' =>
          rw [sameShapeCall, decide_eq_true_eq] at h1
          simp only [recordRun, recordCallEvents, recordCallOutput,
            List.append_assoc, List.cons_append, List.nil_append]
          rw [replayRun, replayCall]
          rw [if_pos h1.symm]
          simp [ih r' h2 rest]

theorem recordRun_fst_map (l : List RRCall) :
    (recordRun l).1 = l.map recordCallOutput := by
  induction l with
  | nil => simp [recordRun]
  | cons c rest ih => simp [recordRun, ih]

theorem recordRun_fst_take (calls : List RRCall) (k : Nat) :
    (recordRun (calls.take k)).1 = ((recordRun calls).1).take k := by
  rw [recordRun_fst_map, recordRun_fst_map, List.map_take]

/-- C1: determinism of record/replay.  For any program (sequence of
instrumented calls) recorded to an event stream, replaying the identical
program (same call kinds and buffer sizes at every site, arbitrary
replay-time computed values) against the recording reproduces exactly the
recorded sequence of returned values/bytes, for every prefix of the call
sequence; while recording each call returns its argument unchanged. -/
theorem record_replay_determinism (calls calls' : List RRCall)
    (h : sameShape calls calls' = true) (k : Nat) :
    replayRun (calls'.take k) (recordRun calls).2 =
      some (((recordRun calls).1).take k, (recordRun (calls.drop k)).2) ∧
    (recordRun calls).1 = calls.map recordCallOutput := by
  constructor
  · have hsplit : (recordRun calls).2 =
        (recordRun (calls.take k)).2 ++ (recordRun (calls.drop k)).2 := by
      conv_lhs => rw [← List.take_append_drop k calls]
      rw [recordRun_append]
    rw [hsplit, replayRun_of_recordRun (calls.take k) (calls'.take k)
      (sameShape_take calls calls' h k), recordRun_fst_take]
  · exact recordRun_fst_map calls

theorem record_replay_determinism_witness :
    sameShape [.value 42, .value 7] [.value 13, .value 99] = true ∧
    replayRun ([RRCall.value 13, RRCall.value 99].take 2)
        (recordRun [RRCall.value 42, RRCall.value 7]).2 =
      some ([RROutput.value 42, RROutput.value 7],
        (recordRun ([RRCall.value 42, RRCall.value 7].drop 2)).2) := by
  refine ⟨by decide, ?_⟩
  have h := record_replay_determinism [.value 42, .value 7]
    [.value 13, .value 99] (by decide) 2
  exact h.1

/-! ## EnsureRecordingLength and the root's UpdateRecordingFromRoot reply (C4)

`EnsureRecordingLength(aLength)` sends `UpdateRecordingFromRootMessage(
gForkId, gRecordingContents.length(), aLength)` when this is a fork whose
local contents are short, then waits on the monitor until the contents
reach `aLength`.  The root's `HandleMessageFromForkedProcess` answers an
`UpdateRecordingFromRoot` request by ensuring its own contents reach the
required length and replying with `RecordingDataMessage(forkId, start,
contents + start, requiredLength - start)`.  The monitor wait is modelled
by a list of byte chunks that arrive while waiting. -/

/-- An `UpdateRecordingFromRootMessage`: fork id, start offset
(the fork's current content length) and required total length. -/
structure UpdateFromRootMsg where
  forkId : Nat
  start : Nat
  requiredLength : Nat
deriving DecidableEq

/-- The wait loop of `EnsureRecordingLength`: wait (consuming arriving
chunks appended to the contents) until the contents have at least `n`
bytes; `none` models blocking forever because no more data arrives. -/
def ensureWait (contents : List Nat) (n : Nat) :
    List (List Nat) → Option (List Nat)
  | [] => if n ≤ contents.length then some contents else none
  | a :: rest =>
    if n ≤ contents.length then some contents else ensureWait (contents ++ a) n rest

/-- `EnsureRecordingLength`: the request sent to the root (if any) and the
local contents at the time the wait loop exits. -/
def ensureRecordingLength (forkId : Nat) (contents : List Nat) (n : Nat)
    (arrivals : List (List Nat)) :
    Option UpdateFromRootMsg × Option (List Nat) :=
  (if forkId ≠ 0 ∧ contents.length < n then
      some ⟨forkId, contents.length, n⟩
    else none,
    ensureWait contents n arrivals)

/-- The `UpdateRecordingFromRoot` case of `HandleMessageFromForkedProcess`:
the root ensures its own recording has the required length and replies with
the bytes from `msg.start` up to `msg.requiredLength`. -/
def handleUpdateRecordingFromRoot (rootContents : List Nat)
    (rootArrivals : List (List Nat)) (msg : UpdateFromRootMsg) :
    Option RecordingDataMsg :=
  match ensureWait rootContents msg.requiredLength rootArrivals with
  | some c =>
    some ⟨msg.forkId, msg.start, (c.drop msg.start).take (msg.requiredLength - msg.start)⟩
  | none => none

theorem ensureWait_length (contents : List Nat) (n : Nat)
    (arrivals : List (List Nat)) (c : List Nat)
    (h : ensureWait contents n arrivals = some c) : n ≤ c.length := by
  induction arrivals generalizing contents with
  | nil =>
    rw [ensureWait] at h
    by_cases hle : n ≤ contents.length
    · rw [if_pos hle, Option.some.injEq] at h
      rw [← h]
      exact hle
    · rw [if_neg hle] at h
      exact absurd h (by simp)
  | cons a rest ih =>
    rw [ensureWait] at h
    by_cases hle : n ≤ contents.length
    · rw [if_pos hle, Option.some.injEq] at h
      rw [← h]
      exact hle
    · rw [if_neg hle] at h
      exact ih (contents ++ a) h

/-- C4: `EnsureRecordingLength(n)` only returns once the locally held
recording contents have length at least `n`; a fork whose local contents
are shorter than `n` first sends `UpdateRecordingFromRoot(forkId, local
length, n)` to the root; and the root's reply to that request carries
exactly the missing byte range: it starts at the fork's local length and
contains exactly the bytes `[local length, n)` of the root's contents. -/
theorem ensureRecordingLength_spec (forkId : Nat) (contents : List Nat)
    (n : Nat) (arrivals : List (List Nat)) (final : List Nat)
    (hret : (ensureRecordingLength forkId contents n arrivals).2 = some final)
    (hfork : forkId ≠ 0) (hshort : contents.length < n)
    (rootContents : List Nat) (rootArrivals : List (List Nat))
    (resp : RecordingDataMsg) (rootFinal : List Nat)
    (hrootWait : ensureWait rootContents n rootArrivals = some rootFinal)
    (hresp : handleUpdateRecordingFromRoot rootContents rootArrivals
        ⟨forkId, contents.length, n⟩ = some resp) :
    n ≤ final.length ∧
    (ensureRecordingLength forkId contents n arrivals).1 =
      some ⟨forkId, contents.length, n⟩ ∧
    resp.start = contents.length ∧
    resp.data = (rootFinal.drop contents.length).take (n - contents.length) ∧
    resp.data.length = n - contents.length ∧
    rootFinal.take n = rootFinal.take contents.length ++ resp.data := by
  have hroot_len : n ≤ rootFinal.length :=
    ensureWait_length rootContents n rootArrivals rootFinal hrootWait
  rw [handleUpdateRecordingFromRoot] at hresp
  rw [hrootWait] at hresp
  rw [Option.some.injEq] at hresp
  refine ⟨?_, ?_, ?_, ?_, ?_, ?_⟩
  · exact ensureWait_length contents n arrivals final hret
  · rw [ensureRecordingLength]
    simp only [if_pos (And.intro hfork hshort)]
  · rw [← hresp]
  · rw [← hresp]
  · rw [← hresp]
    simp only [List.length_take, List.length_drop]
    omega
  · rw [← hresp]
    have hdecomp := List.take_add rootFinal contents.length (n - contents.length)
    rw [Nat.add_sub_cancel' (Nat.le_of_lt hshort)] at hdecomp
    exact hdecomp

theorem ensureRecordingLength_spec_witness :
    (ensureRecordingLength 7 [1, 2] 4 [[3, 4]]).2 = some [1, 2, 3, 4] ∧
    (7 : Nat) ≠ 0 ∧ ([1, 2] : List Nat).length < 4 ∧
    ensureWait [1, 2, 3, 4, 5] 4 [] = some [1, 2, 3, 4, 5] ∧
    handleUpdateRecordingFromRoot [1, 2, 3, 4, 5] [] ⟨7, 2, 4⟩ =
      some ⟨7, 2, [3, 4]⟩ ∧
    (4 ≤ ([1, 2, 3, 4] : List Nat).length ∧
      (ensureRecordingLength 7 [1, 2] 4 [[3, 4]]).1 = some ⟨7, 2, 4⟩) := by
  have h := ensureRecordingLength_spec 7 [1, 2] 4 [[3, 4]] [1, 2, 3, 4]
    (by decide) (by decide) (by decide) [1, 2, 3, 4, 5] [] ⟨7, 2, [3, 4]⟩
    [1, 2, 3, 4, 5] (by decide) (by decide)
  exact ⟨by decide, by decide, by decide, by decide, by decide, h.1, h.2.1⟩

/-! ## Fork timeout (C5)

`PerformFork` (child IPC file): the parent unlocks the fork lock and
returns; the child registers with the root's fork listener and calls
`gChannel->ExitIfNotInitializedBefore(TimeStamp::Now() +
TimeDuration::FromSeconds(ForkTimeoutSeconds))`.  The body of
`Channel::ExitIfNotInitializedBefore` is not under `src/` (only its
declaration "Exit the process if the channel is not initialized before a
deadline"), so it is modelled from the specification. -/

/-- `static const size_t ForkTimeoutSeconds = 10`. -/
def ForkTimeoutSeconds : Nat := 10

/-- Outcome of `PerformFork` for one of the two processes. -/
inductive ForkOutcome where
  | parentContinues
  | childRunning
  | childSelfExit (time : Nat)
deriving DecidableEq

/-- Modelled from the spec: "Exit the process if the channel is not
initialized before a deadline."  `channelInit` is the time at which the
forked child's channel to the root becomes initialized, if ever. -/
def exitIfNotInitializedBefore (channelInit : Option Nat) (deadline : Nat) :
    ForkOutcome :=
  match channelInit with
  | some t => if t < deadline then .childRunning else .childSelfExit deadline
  | none => .childSelfExit deadline

/-- `PerformFork`: the parent (original process) unlocks and continues; the
child sets a deadline of `ForkTimeoutSeconds` after the fork time and exits
if its channel is not initialized by then. -/
def performFork (isParent : Bool) (forkTime : Nat) (channelInit : Option Nat) :
    ForkOutcome :=
  if isParent then .parentContinues
  else exitIfNotInitializedBefore channelInit (forkTime + ForkTimeoutSeconds)

/-- C5: a forked replaying process whose channel is never initialized
self-terminates exactly 10 seconds after the fork instead of waiting
forever, and the parent process continues unaffected. -/
theorem fork_timeout_self_exit (forkTime : Nat) (channelInit : Option Nat)
    (hnever : channelInit = none) :
    performFork false forkTime channelInit = .childSelfExit (forkTime + 10) ∧
    performFork true forkTime channelInit = .parentContinues := by
  subst hnever
  exact ⟨rfl, rfl⟩

theorem fork_timeout_self_exit_witness :
    (none : Option Nat) = none ∧
    performFork false 5 none = .childSelfExit 15 ∧
    performFork true 5 none = .parentContinues := by
  have h := fork_timeout_self_exit 5 none rfl
  exact ⟨rfl, h.1, h.2⟩

/-! ## Checkpoint request gating (C6)

Two gates exist.  The `CreateCheckpoint` case of `ChannelMessageHandler`
(child IPC file) writes a byte to the checkpoint pipe only when
`js::IsInitialized()`; its comment says "Ignore requests to create
checkpoints before we have reached the first paint and finished
initializing".  The pipe byte is read by `ListenForCheckpointThreadMain`,
which dispatches `CreateCheckpoint` to the main thread, creating a
checkpoint.  `MaybeCreateCheckpoint` (ProcessRecordReplay.cpp) calls
`gRecordReplayNewCheckpoint()` only when a first checkpoint already exists
(`HasCheckpoint()`).  Neither path stores an ignored request anywhere. -/

/-- Checkpoint-related process state: whether the JS module is initialized
(`js::IsInitialized()`), whether a first checkpoint exists
(`gHasCheckpoint`), and how many checkpoints have been created. -/
structure CpState where
  jsInitialized : Bool
  hasCheckpoint : Bool
  checkpointsCreated : Nat
deriving DecidableEq

/-- The `CreateCheckpoint` channel-message case followed by the checkpoint
listener thread: when `js::IsInitialized()`, a byte goes down the pipe and
the listener dispatches `CreateCheckpoint`, creating a checkpoint;
otherwise the request is ignored and the state is untouched. -/
def handleCreateCheckpointRequest (st : CpState) : CpState :=
  if st.jsInitialized then
    ⟨st.jsInitialized, true, st.checkpointsCreated + 1⟩
  else
    st

/-- `MaybeCreateCheckpoint`: calls `gRecordReplayNewCheckpoint()` only when
a checkpoint already exists; otherwise does nothing. -/
def maybeCreateCheckpointStep (st : CpState) : CpState :=
  if st.hasCheckpoint then
    ⟨st.jsInitialized, true, st.checkpointsCreated + 1⟩
  else
    st

/-- C6 counterexample: a checkpoint request arriving before initialization
leaves the process state completely unchanged on both paths — nothing is
recorded anywhere, so the request cannot be honored later; it is silently
dropped, contradicting the claim that such requests are deferred and later
honored. -/
theorem checkpoint_request_dropped :
    handleCreateCheckpointRequest ⟨false, false, 0⟩ = ⟨false, false, 0⟩ ∧
    maybeCreateCheckpointStep ⟨true, false, 0⟩ = ⟨true, false, 0⟩ ∧
    (handleCreateCheckpointRequest ⟨false, false, 0⟩).checkpointsCreated = 0 := by
  decide

/-- C6 (amended): a checkpoint request that arrives when checkpoint
creation is not legal (JS not initialized for channel requests; no first
checkpoint yet for `MaybeCreateCheckpoint`) is silently ignored — the state
is unchanged and no checkpoint is forced through — while a request arriving
when creation is legal is honored by creating exactly one checkpoint. -/
theorem checkpoint_request_gating (st : CpState) :
    (st.jsInitialized = false → handleCreateCheckpointRequest st = st) ∧
    (st.jsInitialized = true →
      (handleCreateCheckpointRequest st).checkpointsCreated =
        st.checkpointsCreated + 1) ∧
    (st.hasCheckpoint = false → maybeCreateCheckpointStep st = st) ∧
    (st.hasCheckpoint = true →
      (maybeCreateCheckpointStep st).checkpointsCreated =
        st.checkpointsCreated + 1) := by
  refine ⟨fun h => ?_, fun h => ?_, fun h => ?_, fun h => ?_⟩ <;>
    simp [handleCreateCheckpointRequest, maybeCreateCheckpointStep, h]

theorem checkpoint_request_gating_witness :
    ((⟨false, true, 3⟩ : CpState).jsInitialized = false →
      handleCreateCheckpointRequest ⟨false, true, 3⟩ = ⟨false, true, 3⟩) ∧
    ((⟨false, true, 3⟩ : CpState).hasCheckpoint = true →
      (maybeCreateCheckpointStep ⟨false, true, 3⟩).checkpointsCreated = 4) := by
  have h := checkpoint_request_gating ⟨false, true, 3⟩
  exact ⟨h.1, h.2.2.2⟩

/-! ## Unhandled divergence reporting (C7)

`ReportUnhandledDivergence` (child IPC file): off the main thread or with
divergence disallowed it calls `ReportFatalError`, which crashes the
process via `MOZ_CRASH` unless `gExitCalled` is set (process already
shutting down); otherwise it sends `UnhandledDivergenceMessage(gForkId)`
on the channel and blocks the thread forever
(`Thread::WaitForeverNoIdle`). -/

/-- What happens to the thread calling `ReportUnhandledDivergence`.
`continueExecution` is never produced: execution cannot proceed past a
divergence. -/
inductive DivergenceOutcome where
  | fatalCrash
  | sendAndWaitForever (forkId : Nat)
  | continueExecution
deriving DecidableEq

/-- `ReportUnhandledDivergence`, given the calling thread's main-thread
status, `gUnhandledDivergenceAllowed`, `gExitCalled` and `gForkId`. -/
def reportUnhandledDivergence (isMainThread allowed exitCalled : Bool)
    (forkId : Nat) : DivergenceOutcome :=
  if (!isMainThread || !allowed) && !exitCalled then
    .fatalCrash
  else
    .sendAndWaitForever forkId

/-- C7: off the main thread or with unhandled divergence disallowed the
process takes the fatal-error path (except when already exiting); otherwise
the divergence is tolerated by sending `UnhandledDivergence` with the
process's fork id and blocking the thread forever.  No call ever results in
execution continuing past the divergence. -/
theorem unhandled_divergence_never_ignored (isMainThread allowed exitCalled : Bool)
    (forkId : Nat) :
    ((isMainThread = false ∨ allowed = false) → exitCalled = false →
      reportUnhandledDivergence isMainThread allowed exitCalled forkId =
        .fatalCrash) ∧
    (isMainThread = true → allowed = true →
      reportUnhandledDivergence isMainThread allowed exitCalled forkId =
        .sendAndWaitForever forkId) ∧
    reportUnhandledDivergence isMainThread allowed exitCalled forkId ≠
      .continueExecution := by
  refine ⟨fun h1 h2 => ?_, fun h1 h2 => ?_, ?_⟩
  · rcases h1 with h | h <;>
      simp [reportUnhandledDivergence, h, h2]
  · simp [reportUnhandledDivergence, h1, h2]
  · unfold reportUnhandledDivergence
    by_cases h : ((!isMainThread || !allowed) && !exitCalled) = true <;>
      simp [h]

theorem unhandled_divergence_never_ignored_witness :
    ((false = false ∨ true = false) → false = false →
      reportUnhandledDivergence false true false 3 = .fatalCrash) ∧
    reportUnhandledDivergence false true false 3 ≠ .continueExecution := by
  have h := unhandled_divergence_never_ignored false true false 3
  exact ⟨h.1, h.2.2⟩

/-! ## Channel message routing in a child process (C8, C10)

`ChannelMessageHandler` (child IPC file): a message whose fork id differs
from `gForkId` is never handled locally — a forked process (`gForkId ≠ 0`)
prints a warning and ignores it, while the root replaying process
(`gForkId = 0`) hands it to `SendMessageToForkedProcess`, which either
sends it on the matching fork's channel (removing the fork's entry for
`Terminate`/`Crash`) or appends it to `gPendingForkMessages` until that
fork's channel connects; `ForkListenerThread` flushes the matching pending
messages when the fork connects.  A `Ping` message with the process's own
fork id is answered by exactly one `PingResponse` with the same ping id
and progress `*ExecutionProgressCounter() + Thread::TotalEventProgress()`. -/

/-- Body of a channel message (the subset of `MessageType` relevant here;
`other` stands for the remaining types). -/
inductive MsgBody where
  | ping (pingId : Nat)
  | terminate
  | crash
  | createCheckpoint
  | recordingData (start : Nat) (data : List Nat)
  | other (tag : Nat)
deriving DecidableEq

/-- A channel message: fork-id routing field plus body. -/
structure ChanMsg where
  forkId : Nat
  body : MsgBody
deriving DecidableEq

/-- Messages a child process sends on its channel in response
(only `PingResponse` matters for the claims here). -/
inductive SentMsg where
  | pingResponse (forkId pingId progress : Nat)
deriving DecidableEq

/-- Child-process state around the channel handler: own fork id, the fork
ids with a connected channel (`gForkedProcesses`), `gPendingForkMessages`,
the two progress sources, and the recording-data state. -/
structure RouterState where
  myForkId : Nat
  connectedForks : List Nat
  pendingForkMessages : List ChanMsg
  execProgress : Nat
  totalEventProgress : Nat
  recData : RecState
deriving DecidableEq

/-- How `ChannelMessageHandler` disposed of a message. -/
inductive RouteResult where
  | handledLocally (sent : List SentMsg)
  | ignoredWithWarning
  | forwardedToFork (forkId : Nat)
  | queuedForFork
deriving DecidableEq

/-- `SendMessageToForkedProcess`: send on the fork's channel when connected
(deleting the fork entry for `Terminate`/`Crash`), otherwise queue the
message for when the fork connects. -/
def sendMessageToForkedProcess (st : RouterState) (msg : ChanMsg) :
    RouteResult × RouterState :=
  if msg.forkId ∈ st.connectedForks then
    if msg.body = .terminate ∨ msg.body = .crash then
      (.forwardedToFork msg.forkId,
        ⟨st.myForkId, st.connectedForks.erase msg.forkId,
          st.pendingForkMessages, st.execProgress, st.totalEventProgress, st.recData⟩)
    else
      (.forwardedToFork msg.forkId, st)
  else
    (.queuedForFork,
      ⟨st.myForkId, st.connectedForks, st.pendingForkMessages ++ [msg],
        st.execProgress, st.totalEventProgress, st.recData⟩)

/-- Local handling of a message addressed to this process: a `Ping` is
answered by one `PingResponse` carrying the execution progress counter plus
the total event-stream progress of all threads; `RecordingData` goes to
`OnNewRecordingData`; the remaining cases send nothing on the channel. -/
def handleLocalMessage (st : RouterState) (msg : ChanMsg) :
    RouteResult × RouterState :=
  match msg.body with
  | .ping pingId =>
    (.handledLocally
        [.pingResponse st.myForkId pingId (st.execProgress + st.totalEventProgress)],
      st)
  | .recordingData start data =>
    (.handledLocally [],
      ⟨st.myForkId, st.connectedForks, st.pendingForkMessages, st.execProgress,
        st.totalEventProgress, onNewRecordingData st.recData ⟨msg.forkId, start, data⟩⟩)
  | _ => (.handledLocally [], st)

/-- `ChannelMessageHandler`: fork-id routing, then local handling. -/
def channelMessageHandler (st : RouterState) (msg : ChanMsg) :
    RouteResult × RouterState :=
  if msg.forkId ≠ st.myForkId then
    if st.myForkId ≠ 0 then (.ignoredWithWarning, st)
    else sendMessageToForkedProcess st msg
  else
    handleLocalMessage st msg

/-- `ForkListenerThread`, when fork `f` connects: flush the pending
messages destined for `f` (in order) to its new channel, keep the others,
and record the fork's channel as connected. -/
def connectFork (st : RouterState) (f : Nat) : List ChanMsg × RouterState :=
  (st.pendingForkMessages.filter (fun m => m.forkId == f),
    ⟨st.myForkId, st.connectedForks ++ [f],
      st.pendingForkMessages.filter (fun m => m.forkId != f),
      st.execProgress, st.totalEventProgress, st.recData⟩)

/-- C8: a `Ping` whose fork id matches the process's own fork id is handled
locally by sending exactly one `PingResponse` with the same ping id and a
progress value equal to the execution progress counter plus the total
event-stream progress of all threads; the state is unchanged. -/
theorem ping_response_liveness_and_progress (st : RouterState) (pingId : Nat) :
    channelMessageHandler st ⟨st.myForkId, .ping pingId⟩ =
      (.handledLocally
          [.pingResponse st.myForkId pingId
              (st.execProgress + st.totalEventProgress)],
        st) := by
  unfold channelMessageHandler
  simp [handleLocalMessage]

/-- C10: a message whose fork id differs from the process's own is never
handled locally: a forked process (nonzero fork id) ignores it with a
warning and changes nothing, while the root forwards it to the matching
connected fork, or queues it when that fork's channel is not yet connected;
when the fork later connects, every queued message for it is flushed to the
fork and removed from the queue. -/
theorem fork_message_routing (st : RouterState) (msg : ChanMsg)
    (h : msg.forkId ≠ st.myForkId) :
    (∀ sent, (channelMessageHandler st msg).1 ≠ .handledLocally sent) ∧
    (st.myForkId ≠ 0 → channelMessageHandler st msg = (.ignoredWithWarning, st)) ∧
    (st.myForkId = 0 → msg.forkId ∈ st.connectedForks →
      (channelMessageHandler st msg).1 = .forwardedToFork msg.forkId) ∧
    (st.myForkId = 0 → msg.forkId ∉ st.connectedForks →
      (channelMessageHandler st msg).1 = .queuedForFork ∧
      (channelMessageHandler st msg).2.pendingForkMessages =
        st.pendingForkMessages ++ [msg]) ∧
    (∀ f m, m ∈ st.pendingForkMessages → m.forkId = f →
      m ∈ (connectFork st f).1 ∧ m ∉ (connectFork st f).2.pendingForkMessages) := by
  refine ⟨?_, fun hf => ?_, fun hroot hconn => ?_, fun hroot hconn => ?_,
    fun f m hm hmf => ?_⟩
  · intro sent
    unfold channelMessageHandler
    rw [if_pos h]
    by_cases hf : st.myForkId ≠ 0
    · rw [if_pos hf]
      simp
    · rw [if_neg hf]
      unfold sendMessageToForkedProcess
      by_cases hconn : msg.forkId ∈ st.connectedForks
      · rw [if_pos hconn]
        by_cases hrem : msg.body = .terminate ∨ msg.body = .crash
        · rw [if_pos hrem]
          simp
        · rw [if_neg hrem]
          simp
      · rw [if_neg hconn]
        simp
  · unfold channelMessageHandler
    rw [if_pos h, if_pos hf]
  · unfold channelMessageHandler
    rw [if_pos h, if_neg (by simp [hroot])]
    unfold sendMessageToForkedProcess
    rw [if_pos hconn]
    by_cases hrem : msg.body = .terminate ∨ msg.body = .crash
    · rw [if_pos hrem]
    · rw [if_neg hrem]
  · unfold channelMessageHandler
    rw [if_pos h, if_neg (by simp [hroot])]
    unfold sendMessageToForkedProcess
    rw [if_neg hconn]
    exact ⟨rfl, rfl⟩
  · unfold connectFork
    constructor
    · simp only [List.mem_filter]
      exact ⟨hm, by simp [hmf]⟩
    · simp only [List.mem_filter]
      intro hcontra
      have := hcontra.2
      simp [hmf] at this

theorem fork_message_routing_witness :
    (3 : Nat) ≠ 0 ∧
    (∀ sent,
      (channelMessageHandler ⟨0, [3], [], 0, 0, ⟨[], []⟩⟩ ⟨3, .other 1⟩).1 ≠
        .handledLocally sent) ∧
    (channelMessageHandler ⟨0, [3], [], 0, 0, ⟨[], []⟩⟩ ⟨3, .other 1⟩).1 =
      .forwardedToFork 3 := by
  have h := fork_message_routing ⟨0, [3], [], 0, 0, ⟨[], []⟩⟩ ⟨3, .other 1⟩
    (by decide)
  exact ⟨by decide, h.1, h.2.2.1 rfl (by decide)⟩

/-! ## Public API wrappers (C9)

`MOZ_MAKE_RECORD_REPLAY_WRAPPER(aName, aReturnType, aDefaultValue, ...)`
in `mfbt/RecordReplay.h` generates `aName` as: call `Internal##aName` when
`IsRecordingOrReplaying()`, otherwise return `aDefaultValue` (void wrappers
do nothing).  Each wrapper below is one macro instantiation; the `internal`
argument stands for the arbitrary `Internal##aName` implementation, and
`why`/pointer arguments are modelled as naturals. -/

/-- Wrapper for `RecordReplayValue(aWhy, aValue)`: default `aValue`. -/
def apiRecordReplayValue (irr : Bool) (internal : Nat → Nat → Nat)
    (why aValue : Nat) : Nat :=
  if irr then internal why aValue else aValue

/-- Wrapper for `RecordReplayBytes(aWhy, aData, aSize)` (void): when not
recording/replaying the internal call is skipped, so the caller's buffer is
left unchanged; the function is modelled as returning the buffer. -/
def apiRecordReplayBytes (irr : Bool) (internal : Nat → List Nat → List Nat)
    (why : Nat) (aData : List Nat) : List Nat :=
  if irr then internal why aData else aData

/-- Wrapper for `AreThreadEventsPassedThrough()`: default `false`. -/
def apiAreThreadEventsPassedThrough (irr : Bool) (internal : Unit → Bool) : Bool :=
  if irr then internal () else false

/-- Wrapper for `AreThreadEventsDisallowed()`: default `false`. -/
def apiAreThreadEventsDisallowed (irr : Bool) (internal : Unit → Bool) : Bool :=
  if irr then internal () else false

/-- Wrapper for `HasDivergedFromRecording()`: default `false`. -/
def apiHasDivergedFromRecording (irr : Bool) (internal : Unit → Bool) : Bool :=
  if irr then internal () else false

/-- Wrapper for `IsUnhandledDivergenceAllowed()`: default `true`. -/
def apiIsUnhandledDivergenceAllowed (irr : Bool) (internal : Unit → Bool) : Bool :=
  if irr then internal () else true

/-- Wrapper for `CreateOrderedLock(aName)`: default `0`. -/
def apiCreateOrderedLock (irr : Bool) (internal : Nat → Int) (aName : Nat) : Int :=
  if irr then internal aName else 0

/-- Wrapper for `ThingIndex(aThing)`: default `0`. -/
def apiThingIndex (irr : Bool) (internal : Nat → Nat) (aThing : Nat) : Nat :=
  if irr then internal aThing else 0

/-- C9: in a process that is neither recording nor replaying
(`IsRecordingOrReplaying()` is false) every public record/replay API
operation degrades to an identity or no-op with its fixed default,
whatever the internal implementations do: `RecordReplayValue` returns its
argument, `RecordReplayBytes` leaves the buffer unchanged, the three
thread-state queries return `false`, `IsUnhandledDivergenceAllowed`
returns `true`, `CreateOrderedLock` returns `0` and `ThingIndex`
returns `0`. -/
theorem api_defaults_when_not_recording_or_replaying
    (iv : Nat → Nat → Nat) (ib : Nat → List Nat → List Nat)
    (ipt idis idiv iall : Unit → Bool) (ilock : Nat → Int) (ithing : Nat → Nat)
    (why v : Nat) (buf : List Nat) (lockName thing : Nat) :
    apiRecordReplayValue false iv why v = v ∧
    apiRecordReplayBytes false ib why buf = buf ∧
    apiAreThreadEventsPassedThrough false ipt = false ∧
    apiAreThreadEventsDisallowed false idis = false ∧
    apiHasDivergedFromRecording false idiv = false ∧
    apiIsUnhandledDivergenceAllowed false iall = true ∧
    apiCreateOrderedLock false ilock lockName = 0 ∧
    apiThingIndex false ithing thing = 0 :=
  ⟨rfl, rfl, rfl, rfl, rfl, rfl, rfl, rfl⟩

end RecRep
